import Mathlib

/-
Verification of the 2D integer geometry kernel `src/utils/LinearAlg2D.cpp`
(namespace `cura`, class `LinearAlg2D`).

The kernel operates on 2D points with 64-bit integer coordinates.  Following
the data-model invariant of the specification ("large enough to hold products
of two such coordinates without overflow"), coordinates are embedded as
unbounded `Int`; every C++ `/` on integers is truncating division toward zero
and is embedded as `Int.tdiv`; `std::sqrt` applied to a non-negative 64-bit
integer and truncated back to an integer is the floor square root, embedded
by the executable `natSqrt` below.

The vector/segment primitives (`Point`, `dot`, `vSize`, `vSize2`, `normal`,
`LineSegment`) come from `IntPoint.h` / `linearAlg2D.h`, which are not part
of the analysed sources; they are modelled from the specification's data
model section, as marked on each definition.
-/

namespace LinearAlg2D

/-- Modelled from the spec: a 2D vector with integer coordinates `(X, Y)`
(`Point` of `IntPoint.h`). The spec requires the coordinate type to be wide
enough that products of coordinates never overflow, so we use `Int`. -/
structure Point where
  X : Int
  Y : Int
deriving DecidableEq, Repr

/-- Modelled from the spec: componentwise addition of points. -/
instance : Add Point := ⟨fun p q => ⟨p.X + q.X, p.Y + q.Y⟩⟩

/-- Modelled from the spec: componentwise subtraction of points. -/
instance : Sub Point := ⟨fun p q => ⟨p.X - q.X, p.Y - q.Y⟩⟩

/-- Modelled from the spec: scalar scaling of a point (C++ `Point * coord_t`,
componentwise). -/
instance : HMul Point Int Point := ⟨fun p c => ⟨p.X * c, p.Y * c⟩⟩

/-- Modelled from the spec: scalar division of a point (C++ `Point / coord_t`,
componentwise, truncating toward zero). -/
instance : HDiv Point Int Point := ⟨fun p c => ⟨p.X.tdiv c, p.Y.tdiv c⟩⟩

@[simp] theorem Point.add_X (p q : Point) : (p + q).X = p.X + q.X := rfl
@[simp] theorem Point.add_Y (p q : Point) : (p + q).Y = p.Y + q.Y := rfl
@[simp] theorem Point.sub_X (p q : Point) : (p - q).X = p.X - q.X := rfl
@[simp] theorem Point.sub_Y (p q : Point) : (p - q).Y = p.Y - q.Y := rfl
@[simp] theorem Point.hmul_X (p : Point) (c : Int) : (p * c).X = p.X * c := rfl
@[simp] theorem Point.hmul_Y (p : Point) (c : Int) : (p * c).Y = p.Y * c := rfl
@[simp] theorem Point.hdiv_X (p : Point) (c : Int) : (p / c).X = p.X.tdiv c := rfl
@[simp] theorem Point.hdiv_Y (p : Point) (c : Int) : (p / c).Y = p.Y.tdiv c := rfl

/-- Modelled from the spec: the dot product of two integer vectors
(`dot` of `IntPoint.h`). -/
def dot (p q : Point) : Int := p.X * q.X + p.Y * q.Y

/-- Modelled from the spec: the squared magnitude of an integer vector
(`vSize2` of `IntPoint.h`). -/
def vSize2 (p : Point) : Int := p.X * p.X + p.Y * p.Y

/-- Fuel-driven floor square root on `Nat`, structurally recursive so that it
evaluates inside the kernel.  When the fuel runs out the argument itself is
returned; `sqrtFuel_bounds` shows the result is the floor square root for
every `n < 4 ^ fuel`. -/
def sqrtFuel : Nat → Nat → Nat
  | 0, n => n
  | fuel+1, n =>
    if n < 2 then n
    else
      let r := 2 * sqrtFuel fuel (n / 4)
      if (r + 1) * (r + 1) ≤ n then r + 1 else r

/-- Executable floor square root.  It agrees with `Nat.sqrt` on every
`n < 4 ^ 64` (`natSqrt_eq_sqrt`), which covers every value a 64-bit source
computation can produce. -/
def natSqrt (n : Nat) : Nat := sqrtFuel 64 n

theorem sqrtFuel_bounds : ∀ (fuel n : Nat), n < 4 ^ fuel →
    sqrtFuel fuel n * sqrtFuel fuel n ≤ n ∧ n < (sqrtFuel fuel n + 1) * (sqrtFuel fuel n + 1) := by
  intro fuel
  induction fuel with
  | zero =>
    intro n hn
    simp only [pow_zero, Nat.lt_one_iff] at hn
    subst hn
    simp [sqrtFuel]
  | succ fuel ih =>
    intro n hn
    show (let r := sqrtFuel (fuel+1) n; r * r ≤ n ∧ n < (r + 1) * (r + 1))
    simp only [sqrtFuel]
    by_cases h2 : n < 2
    · rw [if_pos h2]
      interval_cases n <;> simp
    · rw [if_neg h2]
      have hrec : n / 4 < 4 ^ fuel := by
        have : n < 4 ^ (fuel + 1) := hn
        have h4 : 4 ^ (fuel + 1) = 4 * 4 ^ fuel := by ring
        omega
      obtain ⟨ihl, ihr⟩ := ih (n / 4) hrec
      set r' := sqrtFuel fuel (n / 4) with hr'
      have hlow : (2 * r') * (2 * r') ≤ n := by
        have h1 : (2 * r') * (2 * r') = 4 * (r' * r') := by ring
        have h2' : 4 * (r' * r') ≤ 4 * (n / 4) := by omega
        omega
      have hhigh : n < (2 * r' + 2) * (2 * r' + 2) := by
        have h1 : (2 * r' + 2) * (2 * r' + 2) = 4 * ((r' + 1) * (r' + 1)) := by ring
        have h2' : 4 * (n / 4 + 1) ≤ 4 * ((r' + 1) * (r' + 1)) := by omega
        omega
      by_cases hc : (2 * r' + 1) * (2 * r' + 1) ≤ n
      · rw [if_pos hc]
        refine ⟨hc, ?_⟩
        have : 2 * r' + 1 + 1 = 2 * r' + 2 := by ring
        rw [this]
        exact hhigh
      · rw [if_neg hc]
        exact ⟨hlow, by omega⟩

theorem sqrtFuel_pos : ∀ (fuel n : Nat), 0 < n → 0 < sqrtFuel fuel n := by
  intro fuel
  induction fuel with
  | zero => intro n hn; simpa [sqrtFuel] using hn
  | succ fuel ih =>
    intro n hn
    show 0 < sqrtFuel (fuel+1) n
    simp only [sqrtFuel]
    by_cases h2 : n < 2
    · rw [if_pos h2]; exact hn
    · rw [if_neg h2]
      by_cases hc : (2 * sqrtFuel fuel (n / 4) + 1) * (2 * sqrtFuel fuel (n / 4) + 1) ≤ n
      · rw [if_pos hc]; omega
      · rw [if_neg hc]
        have h4 : 0 < n / 4 ∨ n / 4 = 0 := by omega
        rcases h4 with h4 | h4
        · have := ih (n / 4) h4; omega
        · rw [h4] at hc ⊢
          have h0 : sqrtFuel fuel 0 = 0 := by cases fuel <;> simp [sqrtFuel]
          rw [h0] at hc
          omega

theorem natSqrt_bounds (n : Nat) (h : n < 4 ^ 64) :
    natSqrt n * natSqrt n ≤ n ∧ n < (natSqrt n + 1) * (natSqrt n + 1) :=
  sqrtFuel_bounds 64 n h

theorem natSqrt_eq_sqrt (n : Nat) (h : n < 4 ^ 64) : natSqrt n = Nat.sqrt n := by
  obtain ⟨hl, hr⟩ := natSqrt_bounds n h
  refine Nat.le_antisymm ?_ ?_
  · exact Nat.le_sqrt.mpr hl
  · have := Nat.sqrt_lt.mpr hr
    omega

theorem natSqrt_pos (n : Nat) (h : 0 < n) : 0 < natSqrt n := sqrtFuel_pos 64 n h

/-- Integer square root on `Int`: the floor square root of the argument
clamped to be non-negative.  This embeds the source's
`(int64_t)std::sqrt((double)x)` for the non-negative `x` the kernel feeds
to it. -/
def intSqrt (n : Int) : Int := ((natSqrt n.toNat : Nat) : Int)

theorem intSqrt_nonneg (n : Int) : 0 ≤ intSqrt n := Int.natCast_nonneg _

/-- Modelled from the spec: the magnitude of an integer vector, i.e. the
floor square root of `vSize2` (`vSize` of `IntPoint.h`). -/
def vSize (p : Point) : Int := intSqrt (vSize2 p)

theorem vSize_nonneg (p : Point) : 0 ≤ vSize p := intSqrt_nonneg _

/-- Modelled from the spec: `normal(p, len)` scales vector `p` to length
`len`, moving along the direction of `p` without an explicit
divide-then-multiply by unit length, computed as `p * len / vSize(p)`
componentwise with truncating division; a vector of magnitude zero yields
`(len, 0)`, keeping the operation total (`normal` of `IntPoint.h`). -/
def normal (p : Point) (len : Int) : Point :=
  if vSize p < 1 then ⟨len, 0⟩ else (p * len) / (vSize p)

/-- Modelled from the spec: a directed line segment, an ordered pair of
points.  The source fields are named `from` and `to`; `from` is reserved in
Lean, so they appear here as `fromP` and `toP`. -/
structure LineSegment where
  fromP : Point
  toP : Point
deriving DecidableEq, Repr

/-- Modelled from the spec: the endpoint-difference vector `to - from`. -/
def LineSegment.getVector (s : LineSegment) : Point := s.toP - s.fromP

/-- The 2D determinant / cross product `a.X*b.Y - a.Y*b.X`, as in the local
lambda `det` of `LinearAlg2D::intersection`. -/
def det (p q : Point) : Int := p.X * q.Y - p.Y * q.X

/-- The local `ab_size` of `LinearAlg2D::getPointOnLineWithDist`:
the magnitude of `ab = b - a`. -/
def abSize (a b : Point) : Int := vSize (b - a)

/-- The local `ax_size` of `LinearAlg2D::getPointOnLineWithDist`: the signed
projected offset of `p - a` along `ab`, via the stabilized `normal` route
for segments of magnitude below 50. -/
def axSize (p a b : Point) : Int :=
  if abSize a b < 50 then Int.tdiv (dot (normal (b - a) 1000) (p - a)) 1000
  else Int.tdiv (dot (b - a) (p - a)) (abSize a b)

/-- The local `px_size` of `LinearAlg2D::getPointOnLineWithDist`: the
computed perpendicular offset `sqrt(max(0, |ap|^2 - ax^2))`. -/
def pxSize (p a b : Point) : Int :=
  intSqrt (max 0 (vSize2 (p - a) - axSize p a b * axSize p a b))

/-- The local `xr_size` of `LinearAlg2D::getPointOnLineWithDist`:
`sqrt(dist^2 - px^2)`. -/
def xrSize (p a b : Point) (dist : Int) : Int :=
  intSqrt (dist * dist - pxSize p a b * pxSize p a b)

/-- Embedding of `LinearAlg2D::getPointOnLineWithDist(p, a, b, dist, result)`.
The C++ out-parameter `result` is threaded explicitly: the function receives
its prior value and returns the pair (return value, final value of
`result`). -/
def getPointOnLineWithDist (p a b : Point) (dist : Int) (result : Point) : Bool × Point :=
  if pxSize p a b > dist then (false, result)
  else
    if axSize p a b ≤ 0 then
      -- x lies before ab
      if xrSize p a b dist + axSize p a b < 0 ∨ xrSize p a b dist + axSize p a b > abSize a b then
        (false, result)
      else (true, a + normal (b - a) (xrSize p a b dist + axSize p a b))
    else if axSize p a b ≥ abSize a b then
      -- x lies after ab
      if axSize p a b - xrSize p a b dist < 0 ∨ axSize p a b - xrSize p a b dist > abSize a b then
        (false, result)
      else (true, a + normal (b - a) (axSize p a b - xrSize p a b dist))
    else
      -- x lies on ab; try r in both directions
      if axSize p a b - xrSize p a b dist ≥ 0 then
        (true, a + normal (b - a) (axSize p a b - xrSize p a b dist))
      else
        if axSize p a b + xrSize p a b dist < abSize a b then
          (true, a + normal (b - a) (axSize p a b + xrSize p a b dist))
        else (false, result)

/-- Embedding of `LinearAlg2D::lineSegmentsCollide` (pre-transformed frame:
segment `a` is assumed horizontal at `a_from.Y`, directed in positive X; the
source checks this only with debug assertions, which are modelled as theorem
hypotheses, not runtime checks). -/
def lineSegmentsCollide (a_from a_to b_from b_to : Point) : Bool :=
  if (b_from.Y ≥ a_from.Y ∧ b_to.Y ≤ a_from.Y) ∨ (b_to.Y ≥ a_from.Y ∧ b_from.Y ≤ a_from.Y) then
    if b_to.Y = b_from.Y then
      -- b is horizontal as well: normalize b to increasing X (std::swap of the
      -- X coordinates), then compare X ranges
      if (if b_to.X < b_from.X then b_to.X else b_from.X) > a_to.X then false
      else if (if b_to.X < b_from.X then b_from.X else b_to.X) < a_from.X then false
      else true
    else
      if b_from.X + Int.tdiv ((b_to.X - b_from.X) * (a_from.Y - b_from.Y)) (b_to.Y - b_from.Y) ≥ a_from.X ∧
         b_from.X + Int.tdiv ((b_to.X - b_from.X) * (a_from.Y - b_from.Y)) (b_to.Y - b_from.Y) ≤ a_to.X then
        true
      else false
  else false

/-- Embedding of `LinearAlg2D::intersection`. -/
def intersection (a b : LineSegment) : Point :=
  if det a.getVector b.getVector = 0 then
    -- lines are parallel or collinear: degenerate centroid fallback
    (a.fromP + a.toP + b.fromP + b.toP) / (4 : Int)
  else
    b.fromP + (b.getVector * det (b.fromP - a.fromP) a.getVector) / det a.getVector b.getVector

/-- Embedding of `LinearAlg2D::areParallel`.  The source computes the error
budget as `allowed_error * std::sqrt(dot_size)` in `double` and truncates on
assignment; it is embedded with the integer floor square root, which agrees
exactly whenever `allowed_error` is zero (the only tolerance the claims
exercise) or `dot_size` is a perfect square. -/
def areParallel (a b : LineSegment) (allowed_error : Int) : Bool :=
  if vSize a.getVector = 0 ∨ vSize b.getVector = 0 then true
  else
    decide (abs (abs (dot a.getVector b.getVector) - vSize a.getVector * vSize b.getVector) <
      allowed_error * intSqrt (abs (dot a.getVector b.getVector)))

/-- Embedding of `LinearAlg2D::areCollinear`. -/
def areCollinear (a b : LineSegment) (allowed_error : Int) : Bool :=
  areParallel a b allowed_error &&
  areParallel ⟨a.fromP, b.fromP⟩ b allowed_error &&
  areParallel ⟨a.fromP, b.toP⟩ b allowed_error

/-- Embedding of `LinearAlg2D::getTriangleArea`: `std::abs(a.X*b.Y - a.Y*b.X) / 2`. -/
def getTriangleArea (a b : Point) : Int :=
  Int.tdiv (abs (a.X * b.Y - a.Y * b.X)) 2

/- ### General helper lemmas -/

theorem Point.ext_mk {p q : Point} (h1 : p.X = q.X) (h2 : p.Y = q.Y) : p = q := by
  cases p; cases q; cases h1; cases h2; rfl

theorem Point.add_sub_cancel_left' (u v : Point) : (u + v) - u = v := by
  refine Point.ext_mk ?_ ?_ <;> simp

theorem vSize2_nonneg (p : Point) : 0 ≤ vSize2 p := by
  unfold vSize2
  nlinarith [mul_self_nonneg p.X, mul_self_nonneg p.Y]

theorem vSize2_pos {p : Point} (h : p ≠ ⟨0, 0⟩) : 0 < vSize2 p := by
  rcases lt_or_eq_of_le (vSize2_nonneg p) with hlt | heq
  · exact hlt
  · exfalso
    apply h
    have hX := mul_self_nonneg p.X
    have hY := mul_self_nonneg p.Y
    have h2 : p.X * p.X + p.Y * p.Y = 0 := by unfold vSize2 at heq; omega
    have hX0 : p.X = 0 := by nlinarith
    have hY0 : p.Y = 0 := by nlinarith
    exact Point.ext_mk hX0 hY0

theorem vSize_pos {p : Point} (h : p ≠ ⟨0, 0⟩) : 0 < vSize p := by
  have h2 := vSize2_pos h
  unfold vSize intSqrt
  have h3 : 0 < (vSize2 p).toNat := by omega
  exact_mod_cast natSqrt_pos _ h3

theorem xrSize_nonneg (p a b : Point) (dist : Int) : 0 ≤ xrSize p a b dist :=
  intSqrt_nonneg _

/-- Magnitude bound for truncating remainder: `|tmod n s| ≤ s - 1` for `s ≥ 1`. -/
theorem tmod_abs_le (n s : Int) (hs : 1 ≤ s) : abs (Int.tmod n s) ≤ s - 1 := by
  rcases le_or_lt 0 n with hn | hn
  · have h1 : 0 ≤ Int.tmod n s := Int.tmod_nonneg s hn
    have h2 : Int.tmod n s < s := Int.tmod_lt_of_pos n (by omega)
    rw [abs_of_nonneg h1]; omega
  · have hneg : Int.tmod n s = -Int.tmod (-n) s := by
      rw [Int.tmod_def, Int.tmod_def, Int.neg_tdiv]; ring
    have h1 : 0 ≤ Int.tmod (-n) s := Int.tmod_nonneg s (by omega)
    have h2 : Int.tmod (-n) s < s := Int.tmod_lt_of_pos (-n) (by omega)
    rw [hneg, abs_neg, abs_of_nonneg h1]; omega

/-- One coordinate of `normal`: `c * ((c*ar) tdiv s)` is non-negative when `ar ≥ 0`. -/
theorem normal_comp_nonneg (c ar s : Int) (har : 0 ≤ ar) (hs : 0 ≤ s) :
    0 ≤ c * Int.tdiv (c * ar) s := by
  rcases le_or_lt 0 c with hc | hc
  · exact mul_nonneg hc (Int.tdiv_nonneg (mul_nonneg hc har) hs)
  · have hca : c * ar ≤ 0 := mul_nonpos_iff.mpr (Or.inr ⟨hc.le, har⟩)
    have h3 : Int.tdiv (-(c * ar)) s = -(Int.tdiv (c * ar) s) := Int.neg_tdiv _ _
    have h2 : 0 ≤ Int.tdiv (-(c * ar)) s := Int.tdiv_nonneg (by omega) hs
    have h1 : Int.tdiv (c * ar) s ≤ 0 := by omega
    nlinarith [mul_nonneg (neg_nonneg.mpr hc.le) (neg_nonneg.mpr h1)]

/-- One coordinate of `normal`: `c * ((c*ar) tdiv s) ≤ c*c` when `0 ≤ ar ≤ s`. -/
theorem normal_comp_le (c ar s : Int) (har : 0 ≤ ar) (hars : ar ≤ s) :
    c * Int.tdiv (c * ar) s ≤ c * c := by
  have habs : (Int.tdiv (c * ar) s).natAbs ≤ c.natAbs := by
    rw [Int.natAbs_tdiv, Int.natAbs_mul]
    apply Nat.div_le_of_le_mul
    calc c.natAbs * ar.natAbs ≤ c.natAbs * s.natAbs :=
          Nat.mul_le_mul_left c.natAbs (show ar.natAbs ≤ s.natAbs by omega)
      _ = s.natAbs * c.natAbs := Nat.mul_comm _ _
  calc c * Int.tdiv (c * ar) s ≤ |c * Int.tdiv (c * ar) s| := le_abs_self _
    _ = |c| * |Int.tdiv (c * ar) s| := abs_mul _ _
    _ ≤ |c| * |c| := by
        apply mul_le_mul_of_nonneg_left ?_ (abs_nonneg c)
        rw [Int.abs_eq_natAbs, Int.abs_eq_natAbs]
        exact_mod_cast habs
    _ = c * c := abs_mul_abs_self c

theorem tdiv_mul_err (n s : Int) : s * Int.tdiv n s = n - Int.tmod n s := by
  have := Int.tdiv_add_tmod n s
  omega

/-- The point `a + normal(ab, ar)` with `0 ≤ ar ≤ vSize ab` stays close to the
segment: its offset `d` from `a` projects onto `ab` with a parameter in
`[0, 1]` (i.e. `0 ≤ dot ab d ≤ |ab|²`) and its perpendicular deviation from
the line is below `√2` (i.e. `det(ab, d)² ≤ 2·|ab|²`). -/
theorem normal_near (A : Point) (ar : Int) (h0 : 0 ≤ ar) (h1 : ar ≤ vSize A) :
    0 ≤ dot A (normal A ar) ∧ dot A (normal A ar) ≤ vSize2 A ∧
    det A (normal A ar) ^ 2 ≤ 2 * vSize2 A := by
  by_cases hz : vSize A < 1
  · have hv0 : vSize A = 0 := by have := vSize_nonneg A; omega
    have har0 : ar = 0 := by omega
    subst har0
    have hnm : normal A 0 = ⟨0, 0⟩ := by unfold normal; rw [if_pos hz]
    rw [hnm]
    have h2 := vSize2_nonneg A
    unfold dot det
    refine ⟨by norm_num, by norm_num; omega, by norm_num; omega⟩
  · push_neg at hz
    set s := vSize A with hsdef
    have hnm : normal A ar = ⟨Int.tdiv (A.X * ar) s, Int.tdiv (A.Y * ar) s⟩ := by
      unfold normal
      rw [if_neg (not_lt.mpr hz)]
      rfl
    rw [hnm]
    set t1 := Int.tdiv (A.X * ar) s with ht1
    set t2 := Int.tdiv (A.Y * ar) s with ht2
    have hd : dot A ⟨t1, t2⟩ = A.X * t1 + A.Y * t2 := rfl
    have hdet : det A ⟨t1, t2⟩ = A.X * t2 - A.Y * t1 := rfl
    have hv2 : vSize2 A = A.X * A.X + A.Y * A.Y := rfl
    refine ⟨?_, ?_, ?_⟩
    · rw [hd]
      have hX := normal_comp_nonneg A.X ar s h0 (by omega)
      have hY := normal_comp_nonneg A.Y ar s h0 (by omega)
      rw [← ht1] at hX
      rw [← ht2] at hY
      omega
    · rw [hd, hv2]
      have hX := normal_comp_le A.X ar s h0 h1
      have hY := normal_comp_le A.Y ar s h0 h1
      rw [← ht1] at hX
      rw [← ht2] at hY
      omega
    · rw [hdet]
      have e1 : s * t1 = A.X * ar - Int.tmod (A.X * ar) s := tdiv_mul_err _ _
      have e2 : s * t2 = A.Y * ar - Int.tmod (A.Y * ar) s := tdiv_mul_err _ _
      set m1 := Int.tmod (A.X * ar) s with hm1def
      set m2 := Int.tmod (A.Y * ar) s with hm2def
      have hm1 : |m1| ≤ s - 1 := tmod_abs_le _ _ hz
      have hm2 : |m2| ≤ s - 1 := tmod_abs_le _ _ hz
      have hD : s * (A.X * t2 - A.Y * t1) = A.Y * m1 - A.X * m2 := by
        have hexp : s * (A.X * t2 - A.Y * t1) = A.X * (s * t2) - A.Y * (s * t1) := by ring
        rw [hexp, e1, e2]; ring
      have hbound : |s * (A.X * t2 - A.Y * t1)| ≤ (|A.X| + |A.Y|) * (s - 1) := by
        rw [hD]
        calc |A.Y * m1 - A.X * m2| ≤ |A.Y * m1| + |A.X * m2| := by
              rw [sub_eq_add_neg]
              exact (abs_add _ _).trans (by rw [abs_neg])
          _ = |A.Y| * |m1| + |A.X| * |m2| := by rw [abs_mul, abs_mul]
          _ ≤ |A.Y| * (s - 1) + |A.X| * (s - 1) :=
              add_le_add (mul_le_mul_of_nonneg_left hm1 (abs_nonneg _))
                (mul_le_mul_of_nonneg_left hm2 (abs_nonneg _))
          _ = (|A.X| + |A.Y|) * (s - 1) := by ring
      have hsq : (s * (A.X * t2 - A.Y * t1)) ^ 2 ≤ ((|A.X| + |A.Y|) * (s - 1)) ^ 2 := by
        have habs0 := abs_nonneg (s * (A.X * t2 - A.Y * t1))
        nlinarith [sq_abs (s * (A.X * t2 - A.Y * t1))]
      have hXY : (|A.X| + |A.Y|) ^ 2 ≤ 2 * vSize2 A := by
        rw [hv2]
        nlinarith [sq_nonneg (|A.X| - |A.Y|), sq_abs A.X, sq_abs A.Y]
      have hs1 : (s - 1) ^ 2 ≤ s ^ 2 := by nlinarith
      have key : (A.X * t2 - A.Y * t1) ^ 2 * s ^ 2 ≤ (2 * vSize2 A) * s ^ 2 := by
        calc (A.X * t2 - A.Y * t1) ^ 2 * s ^ 2 = (s * (A.X * t2 - A.Y * t1)) ^ 2 := by ring
          _ ≤ ((|A.X| + |A.Y|) * (s - 1)) ^ 2 := hsq
          _ = (|A.X| + |A.Y|) ^ 2 * (s - 1) ^ 2 := by ring
          _ ≤ (2 * vSize2 A) * s ^ 2 := by
              apply mul_le_mul hXY hs1 (sq_nonneg _) (by have := vSize2_nonneg A; omega)
      have hs2 : (0 : Int) < s ^ 2 := pow_pos (by omega) 2
      exact le_of_mul_le_mul_right key hs2

/-- Success shape of `getPointOnLineWithDist`: a `true` return produces
`a + normal(ab, ar)` for some feasible offset `0 ≤ ar ≤ |ab|`. -/
theorem getPointOnLineWithDist_true_shape (p a b : Point) (dist : Int) (r0 r : Point)
    (h : getPointOnLineWithDist p a b dist r0 = (true, r)) :
    ∃ ar : Int, 0 ≤ ar ∧ ar ≤ vSize (b - a) ∧ r = a + normal (b - a) ar := by
  have hxr := xrSize_nonneg p a b dist
  have hab : abSize a b = vSize (b - a) := rfl
  unfold getPointOnLineWithDist at h
  by_cases h1 : pxSize p a b > dist
  · rw [if_pos h1] at h; simp at h
  · rw [if_neg h1] at h
    by_cases h2 : axSize p a b ≤ 0
    · rw [if_pos h2] at h
      by_cases h3 : xrSize p a b dist + axSize p a b < 0 ∨
          xrSize p a b dist + axSize p a b > abSize a b
      · rw [if_pos h3] at h; simp at h
      · rw [if_neg h3] at h
        push_neg at h3
        simp only [Prod.mk.injEq, true_and] at h
        exact ⟨xrSize p a b dist + axSize p a b, by omega, by omega, h.symm⟩
    · rw [if_neg h2] at h
      by_cases h4 : axSize p a b ≥ abSize a b
      · rw [if_pos h4] at h
        by_cases h5 : axSize p a b - xrSize p a b dist < 0 ∨
            axSize p a b - xrSize p a b dist > abSize a b
        · rw [if_pos h5] at h; simp at h
        · rw [if_neg h5] at h
          push_neg at h5
          simp only [Prod.mk.injEq, true_and] at h
          exact ⟨axSize p a b - xrSize p a b dist, by omega, by omega, h.symm⟩
      · rw [if_neg h4] at h
        by_cases h6 : axSize p a b - xrSize p a b dist ≥ 0
        · rw [if_pos h6] at h
          simp only [Prod.mk.injEq, true_and] at h
          exact ⟨axSize p a b - xrSize p a b dist, by omega, by omega, h.symm⟩
        · rw [if_neg h6] at h
          by_cases h7 : axSize p a b + xrSize p a b dist < abSize a b
          · rw [if_pos h7] at h
            simp only [Prod.mk.injEq, true_and] at h
            exact ⟨axSize p a b + xrSize p a b dist, by omega, by omega, h.symm⟩
          · rw [if_neg h7] at h; simp at h

/- ### Claim C1 -/

/-- C1 (amended): whenever `getPointOnLineWithDist(p, a, b, dist)` returns
`(true, r)`, the point `r` lies within `√2` units of the segment `a–b`: its
offset `r - a` projects onto `ab = b - a` with parameter in `[0, 1]`
(`0 ≤ dot(ab, r-a) ≤ |ab|²`) and its perpendicular deviation from the line
through `a` and `b` is at most `√2` (`det(ab, r-a)² ≤ 2·|ab|²`).  The
original claim — that `r` lies exactly on the segment and `|p - r| = dist`
within one unit — fails: see the counterexample theorem. -/
theorem getPointOnLineWithDist_result_near_segment (p a b : Point) (dist : Int) (r0 r : Point)
    (h : getPointOnLineWithDist p a b dist r0 = (true, r)) :
    0 ≤ dot (b - a) (r - a) ∧ dot (b - a) (r - a) ≤ vSize2 (b - a) ∧
    det (b - a) (r - a) ^ 2 ≤ 2 * vSize2 (b - a) := by
  obtain ⟨ar, h0, h1, hr⟩ := getPointOnLineWithDist_true_shape p a b dist r0 r h
  subst hr
  rw [Point.add_sub_cancel_left']
  exact normal_near (b - a) ar h0 h1

/-- C1 witness: a successful concrete run, `p = (5,5)`, `a = (0,0)`,
`b = (10,0)`, `dist = 5`, returning `r = (5,0)`, which satisfies the
near-segment bounds. -/
theorem getPointOnLineWithDist_result_near_segment_witness :
    0 ≤ dot ((⟨10, 0⟩ : Point) - ⟨0, 0⟩) ((⟨5, 0⟩ : Point) - ⟨0, 0⟩) ∧
    dot ((⟨10, 0⟩ : Point) - ⟨0, 0⟩) ((⟨5, 0⟩ : Point) - ⟨0, 0⟩) ≤
      vSize2 ((⟨10, 0⟩ : Point) - ⟨0, 0⟩) ∧
    det ((⟨10, 0⟩ : Point) - ⟨0, 0⟩) ((⟨5, 0⟩ : Point) - ⟨0, 0⟩) ^ 2 ≤
      2 * vSize2 ((⟨10, 0⟩ : Point) - ⟨0, 0⟩) :=
  getPointOnLineWithDist_result_near_segment ⟨5, 5⟩ ⟨0, 0⟩ ⟨10, 0⟩ 5 ⟨0, 0⟩ ⟨5, 0⟩ (by decide)

/-- C1 counterexample: with `p = (5000,1000)`, `a = (0,0)`, `b = (50,10)` and
`dist = 5200` the call succeeds with `r = (0,0)`, yet
`|p - r|² = 26000000 < 5199² = (dist - 1)²`, i.e. the achieved distance
`|p - r| ≈ 5099` differs from `dist = 5200` by far more than one unit of
rounding (the projection `ax` is inflated by the factor `|ab|/⌊|ab|⌋`). -/
theorem getPointOnLineWithDist_distance_error_cex :
    getPointOnLineWithDist ⟨5000, 1000⟩ ⟨0, 0⟩ ⟨50, 10⟩ 5200 ⟨0, 0⟩ = (true, ⟨0, 0⟩) ∧
    vSize2 ((⟨5000, 1000⟩ : Point) - ⟨0, 0⟩) < (5200 - 1) * (5200 - 1) := by
  decide

/- ### Claim C2 -/

/-- C2 (amended): `getPointOnLineWithDist` returns `false` (leaving `result`
untouched) whenever the computed perpendicular offset
`px = ⌊√(max(0, |ap|² - ax²))⌋` exceeds `dist`.  The original claim — that
the exact perpendicular distance from `p` to the line through `a` and `b`
exceeding `dist` forces failure — is refuted by the counterexample theorem:
the truncated projection `ax` can overshoot, making `px` underestimate the
true perpendicular distance. -/
theorem getPointOnLineWithDist_fails_of_px_gt_dist (p a b : Point) (dist : Int) (r0 : Point)
    (h : pxSize p a b > dist) :
    getPointOnLineWithDist p a b dist r0 = (false, r0) := by
  unfold getPointOnLineWithDist
  rw [if_pos h]

/-- C2 witness: for `p = (0,10)`, `a = (0,0)`, `b = (10,0)`, `dist = 5` the
perpendicular offset is `10 > 5` and the call fails. -/
theorem getPointOnLineWithDist_fails_of_px_gt_dist_witness :
    pxSize ⟨0, 10⟩ ⟨0, 0⟩ ⟨10, 0⟩ > 5 ∧
    getPointOnLineWithDist ⟨0, 10⟩ ⟨0, 0⟩ ⟨10, 0⟩ 5 ⟨42, 17⟩ = (false, ⟨42, 17⟩) :=
  ⟨by decide, getPointOnLineWithDist_fails_of_px_gt_dist ⟨0, 10⟩ ⟨0, 0⟩ ⟨10, 0⟩ 5 ⟨42, 17⟩
    (by decide)⟩

/-- C2 counterexample: with `p = (-3,13)`, `a = (0,0)`, `b = (30,40)` and
`dist = 10`, the exact perpendicular distance from `p` to the line through
`a` and `b` is `510/50 = 10.2 > dist` (equivalently
`det(ab, ap)² = 260100 > dist²·|ab|² = 250000`), yet the function returns
`true` — refuting the claim that it returns `false` whenever the
perpendicular distance exceeds `dist`. -/
theorem getPointOnLineWithDist_true_despite_perp_gt_dist_cex :
    (getPointOnLineWithDist ⟨-3, 13⟩ ⟨0, 0⟩ ⟨30, 40⟩ 10 ⟨0, 0⟩).1 = true ∧
    det ((⟨30, 40⟩ : Point) - ⟨0, 0⟩) ((⟨-3, 13⟩ : Point) - ⟨0, 0⟩) *
        det ((⟨30, 40⟩ : Point) - ⟨0, 0⟩) ((⟨-3, 13⟩ : Point) - ⟨0, 0⟩) >
      10 * 10 * vSize2 ((⟨30, 40⟩ : Point) - ⟨0, 0⟩) := by
  decide

/- ### Claim C3 -/

/-- C3: whenever the direction vectors of segments `a` and `b` have zero
determinant (parallel or collinear lines), `intersection(a, b)` returns the
centroid of the four endpoints, `(a.from + a.to + b.from + b.to) / 4`, with
componentwise truncating integer division. -/
theorem intersection_parallel_centroid (a b : LineSegment)
    (h : det a.getVector b.getVector = 0) :
    intersection a b = (a.fromP + a.toP + b.fromP + b.toP) / (4 : Int) := by
  unfold intersection
  rw [if_pos h]

/-- C3 witness: the parallel horizontal segments `(0,0)–(10,0)` and
`(0,5)–(10,5)` have zero determinant, and `intersection` returns their
four-endpoint centroid `(5, 2)`. -/
theorem intersection_parallel_centroid_witness :
    det (LineSegment.mk ⟨0, 0⟩ ⟨10, 0⟩).getVector (LineSegment.mk ⟨0, 5⟩ ⟨10, 5⟩).getVector = 0 ∧
    intersection ⟨⟨0, 0⟩, ⟨10, 0⟩⟩ ⟨⟨0, 5⟩, ⟨10, 5⟩⟩ =
      ((⟨0, 0⟩ : Point) + ⟨10, 0⟩ + ⟨0, 5⟩ + ⟨10, 5⟩) / (4 : Int) :=
  ⟨by decide, intersection_parallel_centroid ⟨⟨0, 0⟩, ⟨10, 0⟩⟩ ⟨⟨0, 5⟩, ⟨10, 5⟩⟩ (by decide)⟩

/- ### Claim C4 -/

/-- At tolerance zero `areParallel` rejects every pair of segments of
non-zero length, because its error comparison `dot_diff < allowed_error *
sqrt(dot_size)` is strict and the right-hand side is zero. -/
theorem areParallel_zero_tol_false (a b : LineSegment)
    (ha : a.getVector ≠ ⟨0, 0⟩) (hb : b.getVector ≠ ⟨0, 0⟩) :
    areParallel a b 0 = false := by
  unfold areParallel
  rw [if_neg]
  · rw [zero_mul]
    exact decide_eq_false (not_lt.mpr (abs_nonneg _))
  · rintro (h | h)
    · have := vSize_pos ha; omega
    · have := vSize_pos hb; omega

/-- C4 (amended): at tolerance zero `areParallel` returns `false` for every
segment `s` of non-zero length compared with itself, and likewise with any
segment whose direction vector is a positive integer multiple `k` of `s`'s:
the error bound `dot_diff < 0 * sqrt(dot_size)` is a strict comparison
against zero, so zero tolerance admits nothing (only zero-length inputs are
reported parallel).  The original claim — that these calls return `true` —
is refuted by the counterexample theorem. -/
theorem areParallel_self_zero_tolerance_false (s : LineSegment)
    (h : s.getVector ≠ ⟨0, 0⟩) :
    areParallel s s 0 = false ∧
    ∀ (q : Point) (k : Int), 0 < k →
      areParallel s ⟨q, q + s.getVector * k⟩ 0 = false := by
  refine ⟨areParallel_zero_tol_false s s h h, ?_⟩
  intro q k hk
  apply areParallel_zero_tol_false s _ h
  have hgv : (LineSegment.mk q (q + s.getVector * k)).getVector = s.getVector * k :=
    Point.add_sub_cancel_left' q _
  rw [hgv]
  intro heq
  apply h
  have hX : s.getVector.X * k = 0 := congrArg Point.X heq
  have hY : s.getVector.Y * k = 0 := congrArg Point.Y heq
  have hk0 : k ≠ 0 := ne_of_gt hk
  refine Point.ext_mk ?_ ?_
  · rcases mul_eq_zero.mp hX with h' | h'
    · exact h'
    · exact absurd h' hk0
  · rcases mul_eq_zero.mp hY with h' | h'
    · exact h'
    · exact absurd h' hk0

/-- C4 witness: the unit segment `(0,0)–(1,0)` has non-zero length; at zero
tolerance it is not parallel to itself, nor to the doubled segment
`(0,0)–(2,0)`. -/
theorem areParallel_self_zero_tolerance_false_witness :
    areParallel ⟨⟨0, 0⟩, ⟨1, 0⟩⟩ ⟨⟨0, 0⟩, ⟨1, 0⟩⟩ 0 = false ∧
    areParallel ⟨⟨0, 0⟩, ⟨1, 0⟩⟩
      ⟨⟨0, 0⟩, (⟨0, 0⟩ : Point) + (LineSegment.mk ⟨0, 0⟩ ⟨1, 0⟩).getVector * (2 : Int)⟩ 0 =
      false := by
  have H := areParallel_self_zero_tolerance_false ⟨⟨0, 0⟩, ⟨1, 0⟩⟩ (by decide)
  exact ⟨H.1, H.2 ⟨0, 0⟩ 2 (by decide)⟩

/-- C4 counterexample: the segment `s = (0,0)–(1,0)` has non-zero length,
yet `areParallel(s, s, 0) = false` — the claim that a segment is parallel to
itself within zero tolerance fails (the comparison `0 ≤ 0 < 0` is strict). -/
theorem areParallel_self_zero_tolerance_cex :
    (LineSegment.mk ⟨0, 0⟩ ⟨1, 0⟩).getVector ≠ ⟨0, 0⟩ ∧
    areParallel ⟨⟨0, 0⟩, ⟨1, 0⟩⟩ ⟨⟨0, 0⟩, ⟨1, 0⟩⟩ 0 = false := by
  decide

/- ### Claim C5 -/

/-- C5: under the alignment precondition on segment `a` (the source's debug
assertions: `|a_from.Y - a_to.Y| < 2` and `a_from.X - 2 ≤ a_to.X`), if both
endpoints of `b` lie strictly above `a`'s Y value, or both strictly below
it, then `lineSegmentsCollide` returns `false`. -/
theorem lineSegmentsCollide_no_straddle_false (aF aT bF bT : Point)
    (halign : abs (aF.Y - aT.Y) < 2 ∧ aF.X - 2 ≤ aT.X)
    (h : (aF.Y < bF.Y ∧ aF.Y < bT.Y) ∨ (bF.Y < aF.Y ∧ bT.Y < aF.Y)) :
    lineSegmentsCollide aF aT bF bT = false := by
  unfold lineSegmentsCollide
  rw [if_neg (by omega)]

/-- C5 witness: `a = (0,0)–(10,0)` and `b = (0,5)–(10,7)` entirely above it
do not collide. -/
theorem lineSegmentsCollide_no_straddle_false_witness :
    lineSegmentsCollide ⟨0, 0⟩ ⟨10, 0⟩ ⟨0, 5⟩ ⟨10, 7⟩ = false :=
  lineSegmentsCollide_no_straddle_false ⟨0, 0⟩ ⟨10, 0⟩ ⟨0, 5⟩ ⟨10, 7⟩ (by decide)
    (by decide)

/- ### Claim C6 -/

/-- C6 (amended): in the inner case of `getPointOnLineWithDist` — the
computed guard `px ≤ dist` passes, the projection foot lies strictly inside
the segment (`0 < ax < |ab|`), and the backward candidate `ar1 = ax - xr`
is negative — the call succeeds if and only if the forward candidate
`ar2 = ax + xr` satisfies `ar2 < |ab|` *strictly* (the range is half-open
`[0, |ab|)`, not the closed `[0, |ab|]` of the original claim; the boundary
case `ar2 = |ab|`, i.e. `r = b`, is rejected, see the counterexample
theorem). -/
theorem getPointOnLineWithDist_inner_forward_iff (p a b : Point) (dist : Int) (r0 : Point)
    (hpx : pxSize p a b ≤ dist)
    (hax : 0 < axSize p a b)
    (haxb : axSize p a b < abSize a b)
    (har1 : axSize p a b - xrSize p a b dist < 0) :
    ((getPointOnLineWithDist p a b dist r0).1 = true ↔
      axSize p a b + xrSize p a b dist < abSize a b) := by
  unfold getPointOnLineWithDist
  rw [if_neg (by omega), if_neg (by omega), if_neg (by omega), if_neg (by omega)]
  by_cases h7 : axSize p a b + xrSize p a b dist < abSize a b
  · rw [if_pos h7]
    simp [h7]
  · rw [if_neg h7]
    simp [h7]

/-- C6 witness: `p = (10,0)`, `a = (0,0)`, `b = (100,0)`, `dist = 95`
satisfies the inner-case hypotheses (`ax = 10`, `xr = 95`, `ar1 = -85`);
`ar2 = 105 ≥ 100 = |ab|`, and indeed the call fails, matching the
equivalence. -/
theorem getPointOnLineWithDist_inner_forward_iff_witness :
    ((getPointOnLineWithDist ⟨10, 0⟩ ⟨0, 0⟩ ⟨100, 0⟩ 95 ⟨0, 0⟩).1 = true ↔
      axSize ⟨10, 0⟩ ⟨0, 0⟩ ⟨100, 0⟩ + xrSize ⟨10, 0⟩ ⟨0, 0⟩ ⟨100, 0⟩ 95 <
        abSize ⟨0, 0⟩ ⟨100, 0⟩) :=
  getPointOnLineWithDist_inner_forward_iff ⟨10, 0⟩ ⟨0, 0⟩ ⟨100, 0⟩ 95 ⟨0, 0⟩
    (by decide) (by decide) (by decide) (by decide)

/-- C6 counterexample: `p = (10,0)`, `a = (0,0)`, `b = (100,0)`, `dist = 90`
reaches the inner case (`px = 0 ≤ 90`, `ax = 10` with `0 < ax < |ab| = 100`,
`ar1 = -80 < 0`), and the forward candidate `ar2 = 100` lies in the closed
range `[0, |ab|] = [0, 100]` — yet the call returns `false`, refuting the
claimed "succeeds iff `ar2` falls within `[0, |ab|]`". -/
theorem getPointOnLineWithDist_inner_forward_boundary_cex :
    pxSize ⟨10, 0⟩ ⟨0, 0⟩ ⟨100, 0⟩ ≤ 90 ∧
    0 < axSize ⟨10, 0⟩ ⟨0, 0⟩ ⟨100, 0⟩ ∧
    axSize ⟨10, 0⟩ ⟨0, 0⟩ ⟨100, 0⟩ < abSize ⟨0, 0⟩ ⟨100, 0⟩ ∧
    axSize ⟨10, 0⟩ ⟨0, 0⟩ ⟨100, 0⟩ - xrSize ⟨10, 0⟩ ⟨0, 0⟩ ⟨100, 0⟩ 90 < 0 ∧
    0 ≤ axSize ⟨10, 0⟩ ⟨0, 0⟩ ⟨100, 0⟩ + xrSize ⟨10, 0⟩ ⟨0, 0⟩ ⟨100, 0⟩ 90 ∧
    axSize ⟨10, 0⟩ ⟨0, 0⟩ ⟨100, 0⟩ + xrSize ⟨10, 0⟩ ⟨0, 0⟩ ⟨100, 0⟩ 90 ≤
      abSize ⟨0, 0⟩ ⟨100, 0⟩ ∧
    (getPointOnLineWithDist ⟨10, 0⟩ ⟨0, 0⟩ ⟨100, 0⟩ 90 ⟨0, 0⟩).1 = false := by
  decide

/- ### Claim C7 -/

/-- C7: `getTriangleArea(a, b)` equals the absolute value of half the 2D
cross product `a.X*b.Y - a.Y*b.X` (the area of the triangle with vertices at
the origin, `a` and `b`, in integer floor arithmetic), and is always
non-negative. -/
theorem getTriangleArea_eq_half_abs_det (a b : Point) :
    getTriangleArea a b = abs (a.X * b.Y - a.Y * b.X) / 2 ∧ 0 ≤ getTriangleArea a b := by
  constructor
  · unfold getTriangleArea
    exact Int.tdiv_eq_ediv (abs_nonneg _) (by norm_num)
  · exact Int.tdiv_nonneg (abs_nonneg _) (by norm_num)

/- ### Claim C8 -/

/-- C8: whenever `getPointOnLineWithDist` returns `false`, the out-parameter
`result` is left completely unchanged — the final value `r'` equals the
prior value `r0` (the source writes `result` only on the success paths). -/
theorem getPointOnLineWithDist_false_preserves_result (p a b : Point) (dist : Int)
    (r0 r' : Point)
    (h : getPointOnLineWithDist p a b dist r0 = (false, r')) : r' = r0 := by
  unfold getPointOnLineWithDist at h
  split_ifs at h <;> simp_all

/-- C8 witness: a failing call (`px = 10 > dist = 5`) leaves the prior
`result` value `(42,17)` untouched. -/
theorem getPointOnLineWithDist_false_preserves_result_witness :
    getPointOnLineWithDist ⟨0, 10⟩ ⟨0, 0⟩ ⟨10, 0⟩ 5 ⟨42, 17⟩ = (false, ⟨42, 17⟩) ∧
    (⟨42, 17⟩ : Point) = ⟨42, 17⟩ :=
  ⟨by decide, getPointOnLineWithDist_false_preserves_result ⟨0, 10⟩ ⟨0, 0⟩ ⟨10, 0⟩ 5
    ⟨42, 17⟩ ⟨42, 17⟩ (by decide)⟩

/- ### Claim C9 -/

/-- C9: if segment `b` has zero length (`b.from = b.to`), then
`areCollinear(a, b, tol)` returns `true` for every segment `a` and every
tolerance, because each of the three underlying `areParallel` tests takes
`b` as its second argument and returns `true` vacuously on a zero-length
operand. -/
theorem areCollinear_degenerate_b_true (a b : LineSegment) (tol : Int)
    (h : b.fromP = b.toP) : areCollinear a b tol = true := by
  have hv : vSize b.getVector = 0 := by
    have hz : b.getVector = ⟨0, 0⟩ := by
      unfold LineSegment.getVector
      rw [← h]
      exact Point.ext_mk (by simp) (by simp)
    rw [hz]
    decide
  unfold areCollinear areParallel
  rw [if_pos (Or.inr hv), if_pos (Or.inr hv), if_pos (Or.inr hv)]
  rfl

/-- C9 witness: the zero-length segment at `(3,7)` is reported collinear
with `(0,0)–(5,0)` even though its point is far off that line. -/
theorem areCollinear_degenerate_b_true_witness :
    areCollinear ⟨⟨0, 0⟩, ⟨5, 0⟩⟩ ⟨⟨3, 7⟩, ⟨3, 7⟩⟩ 5 = true :=
  areCollinear_degenerate_b_true ⟨⟨0, 0⟩, ⟨5, 0⟩⟩ ⟨⟨3, 7⟩, ⟨3, 7⟩⟩ 5 rfl

/- ### Claim C10 -/

/-- C10: the result of `lineSegmentsCollide` does not depend on the Y
coordinate of `a`'s second endpoint: two calls whose inputs differ only in
`a_to.Y` (both satisfying the alignment precondition, which permits a
1-unit Y difference along `a`) return the same boolean, since the body
reads only `a_to.X` and `a_from.Y`. -/
theorem lineSegmentsCollide_ignores_a_to_Y (aF bF bT : Point) (tx y1 y2 : Int)
    (h1 : abs (aF.Y - y1) < 2 ∧ aF.X - 2 ≤ tx)
    (h2 : abs (aF.Y - y2) < 2) :
    lineSegmentsCollide aF ⟨tx, y1⟩ bF bT = lineSegmentsCollide aF ⟨tx, y2⟩ bF bT := rfl

/-- C10 witness: `a_to = (10,1)` versus `a_to = (10,0)` (both within the
alignment tolerance) give identical collision results against
`b = (5,-5)–(5,5)`. -/
theorem lineSegmentsCollide_ignores_a_to_Y_witness :
    lineSegmentsCollide ⟨0, 0⟩ ⟨10, 1⟩ ⟨5, -5⟩ ⟨5, 5⟩ =
      lineSegmentsCollide ⟨0, 0⟩ ⟨10, 0⟩ ⟨5, -5⟩ ⟨5, 5⟩ :=
  lineSegmentsCollide_ignores_a_to_Y ⟨0, 0⟩ ⟨5, -5⟩ ⟨5, 5⟩ 10 1 0 (by decide) (by decide)

end LinearAlg2D
